import Mathlib

/-!
Verification of `mini-claude-code-go` (single source file `agent.go`).

The Go program is shallowly embedded: pure helper functions become Lean
functions over `String` / `List Char`; stateful methods (the todo board,
the agent loop) become explicit state passing; operations that touch the
outside world (process execution, the network, the file system) are
abstracted as oracle parameters that supply the outcome the world would
have produced.  Paths are modelled for the Unix build of the program,
where `os.PathSeparator` is `'/'`.
-/

deriving instance DecidableEq for Except

namespace MiniCC

/-! ### String helpers mirroring the Go standard library -/

/-- Unicode White_Space, as tested by Go's `unicode.IsSpace`. -/
def isGoSpace (c : Char) : Bool :=
  c = ' ' || c = '\t' || c = '\n' || c = '\r' ||
  c.toNat = 0x0b || c.toNat = 0x0c || c.toNat = 0x85 || c.toNat = 0xa0 ||
  c.toNat = 0x1680 || (0x2000 ≤ c.toNat && c.toNat ≤ 0x200a) ||
  c.toNat = 0x2028 || c.toNat = 0x2029 || c.toNat = 0x202f ||
  c.toNat = 0x205f || c.toNat = 0x3000

/-- Go `strings.TrimSpace`: drop White_Space runes from both ends. -/
def trimSpace (s : String) : String :=
  String.mk (((s.data.dropWhile isGoSpace).reverse.dropWhile isGoSpace).reverse)

/-- Go `strings.ToLower` restricted to ASCII letters.  On every comparison
performed by the program (fixed ASCII tokens such as `"pending"`,
`"shutdown"`) this agrees with Go's Unicode lowering. -/
def lowerChar (c : Char) : Char :=
  if 'A' ≤ c ∧ c ≤ 'Z' then Char.ofNat (c.toNat + 32) else c

def toLowerStr (s : String) : String :=
  String.mk (s.data.map lowerChar)

/-- Go `strings.HasPrefix`. -/
def strStartsWith (s pre : String) : Bool :=
  pre.data.isPrefixOf s.data

/-- Go `strings.TrimPrefix`. -/
def goTrimLead (s pre : String) : String :=
  if strStartsWith s pre then String.mk (s.data.drop pre.data.length) else s

/-- Go `strings.Contains` on rune lists: does `needle` occur as a
contiguous run inside the list? -/
def hasSubstr (needle : List Char) : List Char → Bool
  | [] => needle.isEmpty
  | c :: t => needle.isPrefixOf (c :: t) || hasSubstr needle t

/-! ### The path sandbox (`safePath`, Go `path/filepath` on Unix) -/

/-- Split a rune list at every occurrence of `sep` (Go `strings.Split`). -/
def splitOnSep (sep : Char) : List Char → List (List Char)
  | [] => [[]]
  | c :: t =>
    match splitOnSep sep t with
    | [] => [[]]
    | part :: parts => if c = sep then [] :: part :: parts else (c :: part) :: parts

/-- The element loop of Go `filepath.Clean`: skip empty and `"."`
elements, resolve `".."` against the output stack.  The accumulator holds
the cleaned elements in reverse order. -/
def cleanParts (rooted : Bool) (parts : List (List Char)) : List (List Char) :=
  (parts.foldl
    (fun acc part =>
      if part = [] ∨ part = ['.'] then acc
      else if part = ['.', '.'] then
        match acc with
        | [] => if rooted then [] else [['.', '.']]
        | p :: rest => if p = ['.', '.'] then part :: acc else rest
      else part :: acc)
    []).reverse

/-- Go `filepath.Clean` for Unix paths. -/
def clean (path : String) : String :=
  match path.data with
  | [] => "."
  | c :: rest =>
    let rooted := c == '/'
    let parts := cleanParts rooted (splitOnSep '/' (c :: rest))
    let out := String.mk (List.intercalate ['/'] parts)
    if rooted then "/" ++ out
    else if out = "" then "." else out

/-- Go `filepath.IsAbs` for Unix. -/
def isAbsPath (p : String) : Bool :=
  strStartsWith p "/"

/-- Go `filepath.Join` on two elements. -/
def goJoin (a b : String) : String :=
  if a = "" then (if b = "" then "" else clean b)
  else clean (a ++ "/" ++ b)

/-- Go `filepath.Abs`, with the process working directory `cwd` passed
explicitly (Go reads it via `os.Getwd`). -/
def goAbs (cwd p : String) : String :=
  if isAbsPath p then clean p else goJoin cwd p

/-- `safePath` from `agent.go`: resolve a candidate path against the
workspace root and reject anything that escapes it. -/
def safePath (cwd workDir p : String) : Except String String :=
  let candidate := trimSpace p
  if candidate = "" then .error "path required"
  else
    let joined := if isAbsPath candidate then clean candidate else goJoin workDir candidate
    let abs := goAbs cwd joined
    let workAbs := goAbs cwd workDir
    if ¬ strStartsWith abs (workAbs ++ "/") ∧ ¬ abs = workAbs then
      .error "path escapes workspace"
    else .ok abs

/-! ### The todo board (`TodoManager`) -/

/-- `TodoItem` from `agent.go`. -/
structure TodoItem where
  id : String
  content : String
  status : String
  activeForm : String
deriving DecidableEq

/-- The validation loop inside `TodoManager.Update`: walk the proposed
items accumulating the set of seen ids and the count of `in_progress`
items (the status is lowered into a loop-local copy only).  Returns the
final `in_progress` count on success. -/
def validateItems : List TodoItem → List String → Nat → Except String Nat
  | [], _, inProgressCount => .ok inProgressCount
  | item :: rest, seenIDs, inProgressCount =>
    if item.id ∈ seenIDs then .error ("duplicate todo id: " ++ item.id)
    else if trimSpace item.content = "" then .error "todo content cannot be empty"
    else if trimSpace item.activeForm = "" then .error "todo activeForm cannot be empty"
    else
      let status := toLowerStr item.status
      if ¬ status = "pending" ∧ ¬ status = "in_progress" ∧ ¬ status = "completed" then
        .error "status must be one of: pending, in_progress, completed"
      else
        validateItems rest (item.id :: seenIDs) (if status = "in_progress" then inProgressCount + 1 else inProgressCount)

def todoPendingColor : String := "\x1b[38;2;176;176;176m"

def todoProgressColor : String := "\x1b[38;2;120;200;255m"

def todoCompletedColor : String := "\x1b[38;2;34;139;34m"

def strikethrough : String := "\x1b[9m"

def ansiReset : String := "\x1b[0m"

/-- `render` from `agent.go` (the internal unlocked method), producing the
ANSI-styled listing.  Note the status comparisons are against the exact
lowercase tokens. -/
def TodoManager.render (items : List TodoItem) : String :=
  if items = [] then todoPendingColor ++ "☐ No todos yet" ++ ansiReset
  else
    String.intercalate "\n" (items.map fun todo =>
      let mark := if todo.status = "completed" then "☒" else "☐"
      if todo.status = "completed" then
        todoCompletedColor ++ strikethrough ++ mark ++ " " ++ todo.content ++ ansiReset
      else if todo.status = "in_progress" then
        todoProgressColor ++ mark ++ " " ++ todo.content ++ ansiReset
      else
        todoPendingColor ++ mark ++ " " ++ todo.content ++ ansiReset)

/-- `stats` from `agent.go`: counts keyed by exact status tokens. -/
structure TodoStats where
  total : Nat
  completed : Nat
  inProgress : Nat
deriving DecidableEq

def TodoManager.stats (items : List TodoItem) : TodoStats :=
  { total := items.length
    completed := (items.filter fun todo => todo.status = "completed").length
    inProgress := (items.filter fun todo => todo.status = "in_progress").length }

/-- `TodoManager.Update`: the stored list `tmItems` is the receiver state;
the result pairs the Go `(string, error)` return with the post-call state.
Every error branch leaves the state untouched; success stores the
argument list verbatim (the loop lowers a copy of each item's status, the
slice itself is stored unmodified). -/
def TodoManager.Update (tmItems items : List TodoItem) :
    Except String String × List TodoItem :=
  if items.length > 20 then
    (.error "todo list is limited to 20 items", tmItems)
  else
    match validateItems items [] 0 with
    | .error e => (.error e, tmItems)
    | .ok inProgressCount =>
      if inProgressCount > 1 then
        (.error "only one task can be in_progress at a time", tmItems)
      else
        (.ok (TodoManager.render items), items)

/-! ### Output clamping and the command blocklist -/

/-- `clampText` from `agent.go` (`limit` is a Go `int`; lengths are rune
counts). -/
def clampText (s : String) (limit : Int) : String :=
  if limit ≤ 0 then ""
  else if (s.data.length : Int) ≤ limit then s
  else
    let truncated := String.mk (s.data.take limit.toNat)
    let extras : Int := (s.data.length : Int) - limit
    truncated ++ "\n\n...<truncated " ++ toString extras ++ " chars>"

def dangerTokens : List String :=
  ["rm -rf /", "shutdown", "reboot", "sudo ", "halt"]

/-- `isDangerousCommand` from `agent.go`. -/
def isDangerousCommand (cmd : String) : Bool :=
  dangerTokens.any fun token => hasSubstr token.data (toLowerStr cmd).data

/-! ### Tool arguments (`map[string]interface{}` decoded from JSON) -/

/-- A Go `interface{}` value as produced by `json.Unmarshal` into
`map[string]interface{}`.  JSON numbers become Go `float64`; the program
only ever consumes integral values, so numbers are modelled as `Int`. -/
inductive GoVal where
  | gnull
  | gbool (b : Bool)
  | gnum (n : Int)
  | gstr (s : String)
  | garr (xs : List GoVal)
  | gobj (kvs : List (String × GoVal))

abbrev ArgMap := List (String × GoVal)

def lookupArg (input : ArgMap) (key : String) : Option GoVal :=
  match input.find? (fun kv => kv.1 = key) with
  | some kv => some kv.2
  | none => none

/-- Go `strconv.Atoi` (integer range unbounded in the model). -/
def parseAtoi (s : String) : Option Int :=
  match s.data with
  | [] => none
  | c :: rest =>
    let signDigits : Int × List Char :=
      if c = '+' then (1, rest) else if c = '-' then (-1, rest) else (1, c :: rest)
    if signDigits.2 = [] then none
    else if signDigits.2.all (fun d => d.isDigit) then
      some (signDigits.1 *
        ((signDigits.2.foldl (fun acc d => acc * 10 + (d.toNat - '0'.toNat)) 0 : Nat) : Int))
    else none

/-- `getString` from `agent.go`.  The `json.Number` and `int` cases of the
Go switch are unreachable for maps decoded by `json.Unmarshal`; the
`float64` case formats the number. -/
def getString (input : ArgMap) (key : String) : String :=
  match lookupArg input key with
  | some (.gstr s) => s
  | some (.gnum n) => toString n
  | _ => ""

/-- `getOptionalInt` from `agent.go`. -/
def getOptionalInt (input : ArgMap) (key : String) : Option Int :=
  match lookupArg input key with
  | some (.gnum n) => some n
  | some (.gstr s) =>
    let trimmed := trimSpace s
    if trimmed = "" then none else parseAtoi trimmed
  | _ => none

/-- `getIntOrDefault` from `agent.go`. -/
def getIntOrDefault (input : ArgMap) (key : String) (dflt : Int) : Int :=
  match getOptionalInt input key with
  | some v => v
  | none => dflt

/-! ### The `bash` tool -/

/-- Outcome of `cmd.Run()` as seen by `runBash`, besides the captured
output: clean exit, `*exec.ExitError` (nonzero exit status), or any other
error (e.g. the process could not start). -/
inductive RunErr where
  | clean
  | exitErr (msg : String)
  | otherErr (msg : String)
deriving DecidableEq

/-- `runBash` from `agent.go`.  Process execution is abstracted by the
oracle arguments: `timedOut` is whether `ctx.Err()` is
`context.DeadlineExceeded` after `cmd.Run()` returns, `stdout`/`stderr`
are the captured buffers, `runErr` the error of `cmd.Run()`.  The pair
mirrors the Go `(string, error)` return. -/
def runBash (input : ArgMap) (timedOut : Bool) (stdout stderr : String)
    (runErr : RunErr) : String × Option String :=
  let command := trimSpace (getString input "command")
  if command = "" then ("", some "missing bash.command")
  else if isDangerousCommand command then ("", some "blocked dangerous command")
  else
    let _timeout := getIntOrDefault input "timeout_ms" 30000
    if timedOut then ("(timeout)", none)
    else
      let output := trimSpace (stdout ++ "\n" ++ stderr)
      let output := if output = "" then "(no output)" else output
      match runErr with
      | .exitErr msg => (clampText (output ++ "\n(exit error: " ++ msg ++ ")") 100000, none)
      | .clean => (clampText output 100000, none)
      | .otherErr msg => (clampText output 100000, some msg)

/-! ### Messages and tool dispatch -/

structure ContentBlock where
  blockType : String
  text : String
deriving DecidableEq

/-- Go `Message.Content` is `interface{}`: a plain string, a block list,
or absent (`nil`). -/
inductive MContent where
  | mstr (s : String)
  | mblocks (bs : List ContentBlock)
  | mnone
deriving DecidableEq

structure FunctionRef where
  name : String
  arguments : String
deriving DecidableEq

structure ToolCall where
  id : String
  callType : String
  function : FunctionRef
deriving DecidableEq

structure Message where
  role : String
  content : MContent := .mnone
  toolCalls : List ToolCall := []
  toolCallId : String := ""
  name : String := ""
deriving DecidableEq

structure Choice where
  index : Int := 0
  message : Message
  finishReason : String
deriving DecidableEq

structure APIResponse where
  id : String := ""
  object : String := ""
  created : Int := 0
  model : String := ""
  choices : List Choice
deriving DecidableEq

/-- `dispatchToolCall` from `agent.go`.  `parsed` is the outcome of
`json.Unmarshal` on the raw argument string; `exec` abstracts the five
tool implementations together with their world effects (it is consulted
only for supported tool names).  `maxResult` is `cfg.MaxResult`. -/
def dispatchToolCall (maxResult : Int) (tc : ToolCall)
    (parsed : Except String ArgMap)
    (exec : String → ArgMap → String × Option String) : Message :=
  match parsed with
  | .error e =>
    { role := "tool", content := .mstr ("Error parsing arguments: " ++ e),
      toolCallId := tc.id, name := tc.function.name }
  | .ok input =>
    let r :=
      if tc.function.name = "bash" ∨ tc.function.name = "read_file" ∨
          tc.function.name = "write_file" ∨ tc.function.name = "edit_text" ∨
          tc.function.name = "TodoWrite" then
        exec tc.function.name input
      else ("", some ("unknown tool: " ++ tc.function.name))
    let result := match r.2 with | some msg => msg | none => r.1
    { role := "tool", content := .mstr (clampText result maxResult),
      toolCallId := tc.id, name := tc.function.name }

/-! ### A JSON value parser (model of `encoding/json` syntax) -/

/-- A parsed JSON value.  Numbers keep their raw text (the streaming
decoder never reads them). -/
inductive JVal where
  | jnull
  | jbool (b : Bool)
  | jnum (raw : String)
  | jstr (s : String)
  | jarr (xs : List JVal)
  | jobj (kvs : List (String × JVal))

def isJsonWs (c : Char) : Bool :=
  c = ' ' || c = '\t' || c = '\n' || c = '\r'

def skipJsonWs (cs : List Char) : List Char :=
  cs.dropWhile isJsonWs

def hexDigitVal (c : Char) : Option Nat :=
  if '0' ≤ c ∧ c ≤ '9' then some (c.toNat - '0'.toNat)
  else if 'a' ≤ c ∧ c ≤ 'f' then some (c.toNat - 'a'.toNat + 10)
  else if 'A' ≤ c ∧ c ≤ 'F' then some (c.toNat - 'A'.toNat + 10)
  else none

def unescapeChar (c : Char) : Option Char :=
  if c = '"' then some '"'
  else if c = '\\' then some '\\'
  else if c = '/' then some '/'
  else if c = 'n' then some '\n'
  else if c = 't' then some '\t'
  else if c = 'r' then some '\r'
  else if c = 'b' then some (Char.ofNat 8)
  else if c = 'f' then some (Char.ofNat 12)
  else none

/-- Body of a JSON string literal, after the opening quote.  Returns the
decoded characters and the remainder after the closing quote. -/
def parseJsonStrBody : List Char → Option (List Char × List Char)
  | [] => none
  | '"' :: rest => some ([], rest)
  | '\\' :: 'u' :: h1 :: h2 :: h3 :: h4 :: rest => do
    let n1 ← hexDigitVal h1
    let n2 ← hexDigitVal h2
    let n3 ← hexDigitVal h3
    let n4 ← hexDigitVal h4
    let (s, r) ← parseJsonStrBody rest
    pure (Char.ofNat (((n1 * 16 + n2) * 16 + n3) * 16 + n4) :: s, r)
  | '\\' :: e :: rest => do
    let c ← unescapeChar e
    let (s, r) ← parseJsonStrBody rest
    pure (c :: s, r)
  | '\\' :: [] => none
  | c :: rest => do
    let (s, r) ← parseJsonStrBody rest
    pure (c :: s, r)

/-- A JSON number: `-? int frac? exp?`.  Returns raw text and remainder. -/
def parseJsonNumber (cs : List Char) : Option (List Char × List Char) := do
  let (neg, cs1) :=
    match cs with
    | '-' :: t => ((['-'] : List Char), t)
    | _ => (([] : List Char), cs)
  let (ipart, cs2) ←
    match cs1 with
    | '0' :: t => some ((['0'] : List Char), t)
    | c :: t =>
      if c.isDigit then some (c :: t.takeWhile Char.isDigit, t.dropWhile Char.isDigit)
      else none
    | [] => none
  let (fpart, cs3) ←
    match cs2 with
    | '.' :: t =>
      match t with
      | c :: _ =>
        if c.isDigit then some ('.' :: t.takeWhile Char.isDigit, t.dropWhile Char.isDigit)
        else none
      | [] => none
    | _ => some (([] : List Char), cs2)
  let (epart, cs4) ←
    match cs3 with
    | c :: t =>
      if c = 'e' ∨ c = 'E' then
        let (sgn, t') :=
          match t with
          | '+' :: u => ((['+'] : List Char), u)
          | '-' :: u => ((['-'] : List Char), u)
          | _ => (([] : List Char), t)
        match t' with
        | d :: _ =>
          if d.isDigit then
            some (c :: sgn ++ t'.takeWhile Char.isDigit, t'.dropWhile Char.isDigit)
          else none
        | [] => none
      else some (([] : List Char), cs3)
    | [] => some (([] : List Char), cs3)
  pure (neg ++ ipart ++ fpart ++ epart, cs4)

mutual

/-- Parse one JSON value.  `fuel` bounds nesting; any run with
`fuel ≥ length of the input` cannot exhaust it. -/
def parseJsonVal : Nat → List Char → Option (JVal × List Char)
  | 0, _ => none
  | fuel + 1, cs =>
    match skipJsonWs cs with
    | [] => none
    | '{' :: rest =>
      (match skipJsonWs rest with
       | '}' :: rest' => some (.jobj [], rest')
       | other => do
         let (kvs, r) ← parseJsonMembers fuel other
         pure (.jobj kvs, r))
    | '[' :: rest =>
      (match skipJsonWs rest with
       | ']' :: rest' => some (.jarr [], rest')
       | other => do
         let (xs, r) ← parseJsonElems fuel other
         pure (.jarr xs, r))
    | '"' :: rest => do
      let (s, r) ← parseJsonStrBody rest
      pure (.jstr (String.mk s), r)
    | 't' :: 'r' :: 'u' :: 'e' :: rest => some (.jbool true, rest)
    | 'f' :: 'a' :: 'l' :: 's' :: 'e' :: rest => some (.jbool false, rest)
    | 'n' :: 'u' :: 'l' :: 'l' :: rest => some (.jnull, rest)
    | other => do
      let (raw, r) ← parseJsonNumber other
      pure (.jnum (String.mk raw), r)

/-- One or more `"key": value` members, positioned at the first key. -/
def parseJsonMembers : Nat → List Char → Option (List (String × JVal) × List Char)
  | 0, _ => none
  | fuel + 1, cs => do
    match skipJsonWs cs with
    | '"' :: rest =>
      let (k, r1) ← parseJsonStrBody rest
      match skipJsonWs r1 with
      | ':' :: r2 => do
        let (v, r3) ← parseJsonVal fuel r2
        match skipJsonWs r3 with
        | ',' :: r4 => do
          let (kvs, r5) ← parseJsonMembers fuel r4
          pure ((String.mk k, v) :: kvs, r5)
        | '}' :: r4 => pure ([(String.mk k, v)], r4)
        | _ => none
      | _ => none
    | _ => none

/-- One or more array elements, positioned at the first element. -/
def parseJsonElems : Nat → List Char → Option (List JVal × List Char)
  | 0, _ => none
  | fuel + 1, cs => do
    let (v, r1) ← parseJsonVal fuel cs
    match skipJsonWs r1 with
    | ',' :: r2 => do
      let (xs, r3) ← parseJsonElems fuel r2
      pure (v :: xs, r3)
    | ']' :: r2 => pure ([v], r2)
    | _ => none

end

/-- Parse a complete JSON document: one value, optionally surrounded by
whitespace, consuming the whole input (as `json.Unmarshal` requires). -/
def parseJson (s : String) : Option JVal := do
  let (v, rest) ← parseJsonVal (s.data.length + 1) s.data
  if skipJsonWs rest = [] then pure v else none

/-! ### Decoding a streamed delta chunk (the anonymous struct in
`handleStreamingResponse`, decoded by `json.Unmarshal`) -/

/-- Field lookup as `encoding/json` performs it: the key is matched
case-insensitively against the field tag, and with duplicate keys the
last occurrence wins.  `key` is given in lowercase. -/
def jfield (kvs : List (String × JVal)) (key : String) : Option JVal :=
  match (kvs.filter fun kv => toLowerStr kv.1 = key).getLast? with
  | some kv => some kv.2
  | none => none

/-- One element of `chunk.Choices`. -/
structure DeltaChoice where
  deltaContent : String
  finishReason : String
deriving DecidableEq

/-- Decode a string-typed struct field: absent or `null` leaves the zero
value, a non-string value is a type error. -/
def decodeStrField : Option JVal → Option String
  | none => some ""
  | some .jnull => some ""
  | some (.jstr s) => some s
  | some _ => none

def decodeDelta : Option JVal → Option String
  | none => some ""
  | some .jnull => some ""
  | some (.jobj kvs) => decodeStrField (jfield kvs "content")
  | some _ => none

def decodeChoice : JVal → Option DeltaChoice
  | .jnull => some { deltaContent := "", finishReason := "" }
  | .jobj kvs => do
    let c ← decodeDelta (jfield kvs "delta")
    let f ← decodeStrField (jfield kvs "finish_reason")
    pure { deltaContent := c, finishReason := f }
  | _ => none

def decodeChunkChoices : JVal → Option (List DeltaChoice)
  | .jnull => some []
  | .jobj kvs =>
    (match jfield kvs "choices" with
     | none => some []
     | some .jnull => some []
     | some (.jarr xs) => xs.mapM decodeChoice
     | some _ => none)
  | _ => none

/-- `json.Unmarshal([]byte(dataStr), &chunk)`: `none` is the error case
(the chunk is skipped). -/
def parseChunk (s : String) : Option (List DeltaChoice) :=
  (parseJson s).bind decodeChunkChoices

/-! ### The streaming read loop -/

/-- The scanner loop of `handleStreamingResponse`, over the list of lines
delivered by the stream, accumulating delta text into `acc`. -/
def handleStreamingLines : List String → String → String
  | [], acc => acc
  | line :: rest, acc =>
    if trimSpace line = "" ∨ ¬ strStartsWith line "data: " then
      handleStreamingLines rest acc
    else
      let dataStr := goTrimLead line "data: "
      if dataStr = "[DONE]" then acc
      else
        match parseChunk dataStr with
        | none => handleStreamingLines rest acc
        | some [] => handleStreamingLines rest acc
        | some (c :: _) =>
          let acc1 := if ¬ c.deltaContent = "" then acc ++ c.deltaContent else acc
          if ¬ c.finishReason = "" then acc1 else handleStreamingLines rest acc1

/-- `handleStreamingResponse` from `agent.go`, for a stream whose read
loop ends normally (no scanner error): synthesizes the single assistant
message from the accumulated content. -/
def handleStreamingResponse (lines : List String) : APIResponse :=
  { choices := [{ message := { role := "assistant",
                               content := .mstr (handleStreamingLines lines "") },
                  finishReason := "stop" }] }

/-- Modelled from the spec: the parsed delta content fragments of the
stream, in arrival order, up to the done-sentinel or the first non-empty
finish-reason; blank lines, non-`data:` lines and malformed chunks
contribute nothing.  Used as the specification the accumulator loop is
compared against. -/
def sseFragments : List String → List String
  | [] => []
  | line :: rest =>
    if trimSpace line = "" ∨ ¬ strStartsWith line "data: " then sseFragments rest
    else
      let dataStr := goTrimLead line "data: "
      if dataStr = "[DONE]" then []
      else
        match parseChunk dataStr with
        | none => sseFragments rest
        | some [] => sseFragments rest
        | some (c :: _) =>
          let fs := if ¬ c.deltaContent = "" then [c.deltaContent] else []
          if ¬ c.finishReason = "" then fs else fs ++ sseFragments rest

/-- Concatenation of a list of strings. -/
def concatFrags : List String → String
  | [] => ""
  | s :: rest => s ++ concatFrags rest

/-! ### The agent loop (`query`) -/

def systemPromptFor (wd : String) : String :=
  "You are a coding agent operating INSIDE the user's repository at " ++ wd ++
  ".\nFollow this loop strictly: plan briefly → use TOOLS to act directly on files/shell → report concise results.\n" ++
  "Rules:\n" ++
  "- Prefer taking actions with tools (read/write/edit/bash) over long prose.\n" ++
  "- Keep outputs terse. Use bullet lists / checklists when summarizing.\n" ++
  "- Never invent file paths. Ask via reads or list directories first if unsure.\n" ++
  "- For edits, apply the smallest change that satisfies the request.\n" ++
  "- For bash, avoid destructive or privileged commands; stay inside the workspace.\n" ++
  "- Use the TodoWrite tool to maintain multi-step plans when needed.\n" ++
  "- After finishing, summarize what changed and how to run or test."

def sysMessage (wd : String) : Message :=
  { role := "system", content := .mstr (systemPromptFor wd) }

/-- The inner tool loop of `query`: execute each tool call in order,
appending each result message to both accumulators.  `te` abstracts
`dispatchToolCall` together with its world effects; it receives the
current history as a strictly-growing clock, so an arbitrary sequence of
tool outcomes can be expressed. -/
def execCallsImpl (te : List Message → ToolCall → Message) :
    List ToolCall → List Message × List Message → List Message × List Message
  | [], p => p
  | tc :: rest, (ms, full) =>
    let r := te ms tc
    execCallsImpl te rest (ms ++ [r], full ++ [r])

/-- The iteration loop of `query` from `agent.go`.  `call` abstracts
`callOpenAI` (the network); `ms` is the local `messages` slice returned
to the caller, `full` the `fullMessages` slice actually sent.  The fuel
starts at `maxAgentIterations = 20`; exhausting it yields the distinct
iteration-cap error. -/
def queryLoop (call : List Message → Except String APIResponse)
    (te : List Message → ToolCall → Message) :
    Nat → List Message → List Message → List Message × Option String
  | 0, ms, _ => (ms, some "agent max iterations reached")
  | n + 1, ms, full =>
    match call full with
    | .error e => (ms, some e)
    | .ok resp =>
      match resp.choices with
      | [] => (ms, some "no choices in response")
      | choice :: _ =>
        let aMsg := choice.message
        let ms1 := ms ++ [aMsg]
        let full1 := full ++ [aMsg]
        if choice.finishReason = "tool_calls" ∧ aMsg.toolCalls.length > 0 then
          let p := execCallsImpl te aMsg.toolCalls (ms1, full1)
          queryLoop call te n p.1 p.2
        else (ms1, none)

/-- `query` from `agent.go`.  The `(messages, error)` pair mirrors the Go
return; the round counter / nag bookkeeping does not affect it and is not
modelled. -/
def query (wd : String) (call : List Message → Except String APIResponse)
    (te : List Message → ToolCall → Message)
    (messages : List Message) : List Message × Option String :=
  queryLoop call te 20 messages (sysMessage wd :: messages)

/-- Modelled from the spec: the single-history recursion §4.1 describes —
each round sends the system prompt plus the history, appends the
assistant message, then either appends the tool results and continues, or
stops; a failed call returns the history as of before that call; fuel
exhaustion is the distinct iteration-cap error.  Used as the
specification `query` is compared against. -/
def execCallsSpec (te : List Message → ToolCall → Message) :
    List ToolCall → List Message → List Message
  | [], ms => ms
  | tc :: rest, ms => execCallsSpec te rest (ms ++ [te ms tc])

def querySpec (sys : Message) (call : List Message → Except String APIResponse)
    (te : List Message → ToolCall → Message) :
    Nat → List Message → List Message × Option String
  | 0, ms => (ms, some "agent max iterations reached")
  | n + 1, ms =>
    match call (sys :: ms) with
    | .error e => (ms, some e)
    | .ok resp =>
      match resp.choices with
      | [] => (ms, some "no choices in response")
      | choice :: _ =>
        let ms1 := ms ++ [choice.message]
        if choice.finishReason = "tool_calls" ∧ choice.message.toolCalls.length > 0 then
          querySpec sys call te n (execCallsSpec te choice.message.toolCalls ms1)
        else (ms1, none)

/-! ### Predicates and fixtures used by the statements -/

/-- The validation rules of `TaskBoard.Update` as the claims list them:
length over 20, a duplicate id, empty or whitespace-only content or
activeForm, an invalid status token, or more than one `in_progress` item.
Status tokens are read case-insensitively, which is how the code
validates them (cf. the lowering in the validation loop). -/
def ViolatesUpdateRules (items : List TodoItem) : Prop :=
  items.length > 20 ∨
  ¬ (items.map fun it => it.id).Nodup ∨
  (∃ it ∈ items, trimSpace it.content = "") ∨
  (∃ it ∈ items, trimSpace it.activeForm = "") ∨
  (∃ it ∈ items, ¬ (toLowerStr it.status = "pending" ∨
      toLowerStr it.status = "in_progress" ∨ toLowerStr it.status = "completed")) ∨
  (items.filter fun it => toLowerStr it.status = "in_progress").length > 1

/-- A model response that requests at least one tool call: a successful
call whose first choice finishes with `"tool_calls"` and carries tool
calls. -/
def IsToolRound (r : Except String APIResponse) : Prop :=
  ∃ resp c rest, r = .ok resp ∧ resp.choices = c :: rest ∧
    c.finishReason = "tool_calls" ∧ 0 < c.message.toolCalls.length

/-- A todo item whose status is valid only up to case. -/
def mixedCaseItem : TodoItem :=
  { id := "1", content := "ship it", status := "Completed", activeForm := "shipping" }

/-- The three lines of the spec's streaming transcript. -/
def sseLine1 : String :=
  "data: \x7b\"choices\":[\x7b\"delta\":\x7b\"content\":\"Hi\"\x7d\x7d]\x7d"

def sseLine2 : String :=
  "data: \x7b\"choices\":[\x7b\"delta\":\x7b\"content\":\" there\"\x7d,\"finish_reason\":\"stop\"\x7d]\x7d"

def sseLine3 : String := "data: [DONE]"

/-- A payload that is not valid JSON. -/
def sseBadLine : String := "data: \x7bnot json"

/-! ## Helper lemmas -/

theorem strAppend_nil (s : String) : s ++ "" = s := by
  apply String.ext; simp [String.data_append]

theorem strNil_append (s : String) : "" ++ s = s := by
  apply String.ext; simp [String.data_append]

theorem substrNil (n : List Char) : n <:+: ([] : List Char) ↔ n = [] := by
  constructor
  · rintro ⟨s, t, e⟩
    rcases List.append_eq_nil.mp e with ⟨e1, e2⟩
    rcases List.append_eq_nil.mp e1 with ⟨_, e3⟩
    exact e3
  · rintro rfl; exact ⟨[], [], rfl⟩

theorem substrCons (n : List Char) (c : Char) (t : List Char) :
    n <:+: c :: t ↔ n <+: c :: t ∨ n <:+: t := by
  constructor
  · rintro ⟨s, u, e⟩
    cases s with
    | nil => exact Or.inl ⟨u, by simpa using e⟩
    | cons a s' =>
      right
      simp only [List.cons_append] at e
      injection e with _ e2
      exact ⟨s', u, e2⟩
  · rintro (⟨u, e⟩ | ⟨s, u, e⟩)
    · exact ⟨[], u, by simpa using e⟩
    · exact ⟨c :: s, u, by simp [List.cons_append, e]⟩

theorem prefixOfChar_spec : ∀ n h : List Char, n.isPrefixOf h = true ↔ n <+: h := by
  intro n
  induction n with
  | nil =>
    intro h
    simp [List.isPrefixOf]
  | cons a t ih =>
    intro h
    cases h with
    | nil =>
      simp only [List.isPrefixOf, Bool.false_eq_true, false_iff]
      rintro ⟨u, e⟩
      simp at e
    | cons b u =>
      simp only [List.isPrefixOf, Bool.and_eq_true, beq_iff_eq, ih u]
      constructor
      · rintro ⟨rfl, v, rfl⟩; exact ⟨v, rfl⟩
      · rintro ⟨v, e⟩; injection e with e1 e2; exact ⟨e1, v, e2⟩

theorem hasSubstr_spec (n : List Char) : ∀ h : List Char, hasSubstr n h = true ↔ n <:+: h := by
  intro h
  induction h with
  | nil => simp [hasSubstr, substrNil n, List.isEmpty_iff]
  | cons c t ih =>
    simp [hasSubstr, Bool.or_eq_true, prefixOfChar_spec, ih, substrCons]

theorem clampText_of_le (s : String) (limit : Int)
    (h : (s.data.length : Int) ≤ limit) : clampText s limit = s := by
  by_cases hle : limit ≤ 0
  · have h0 : s.data.length = 0 := by omega
    have hd : s.data = [] := List.eq_nil_of_length_eq_zero h0
    have hs : s = "" := String.ext (by simp [hd])
    rw [hs]
    simp [clampText, hle]
  · unfold clampText
    rw [if_neg hle, if_pos h]

/-! ## C4 — `clampText` -/

/-- C4, counterexample: `clampText` is not idempotent.  Clamping `"abc"`
at limit 1 yields `"a"` plus a 24-character truncation marker; clamping
that result again truncates once more and records a different count, so
the double clamp differs from the single clamp. -/
theorem clampText_idem_cex :
    ¬ clampText (clampText "abc" 1) 1 = clampText "abc" 1 := by decide

/-- C4 (amended): `clampText s limit` equals `s` whenever `s` has at most
`limit` characters — and on such inputs it is idempotent; for a positive
limit exceeded by `s`, the result is the first `limit` characters of `s`
with the truncation marker appended.  Idempotence fails in general (see
the counterexample): re-clamping an over-long result truncates the marker
itself. -/
theorem clampText_behavior :
    (∀ (s : String) (limit : Int), (s.data.length : Int) ≤ limit →
        clampText s limit = s) ∧
    (∀ (s : String) (limit : Int), (s.data.length : Int) ≤ limit →
        clampText (clampText s limit) limit = clampText s limit) ∧
    (∀ (s : String) (limit : Int), 0 < limit → limit < (s.data.length : Int) →
        clampText s limit =
          String.mk (s.data.take limit.toNat) ++
            ("\n\n...<truncated " ++ toString ((s.data.length : Int) - limit) ++
              " chars>")) := by
  refine ⟨fun s l h => clampText_of_le s l h,
          fun s l h => by simp only [clampText_of_le s l h],
          fun s l h1 h2 => ?_⟩
  unfold clampText
  rw [if_neg (by omega), if_neg (by omega)]
  simp [String.append_assoc]

/-- Witness for C4's amended theorem at concrete inputs. -/
theorem clampText_behavior_witness :
    clampText "ab" 5 = "ab" ∧
    clampText (clampText "ab" 5) 5 = clampText "ab" 5 ∧
    clampText "abc" 1 =
      String.mk ("abc".data.take (1 : Int).toNat) ++
        ("\n\n...<truncated " ++ toString (("abc".data.length : Int) - 1) ++ " chars>") :=
  ⟨clampText_behavior.1 "ab" 5 (by decide),
   clampText_behavior.2.1 "ab" 5 (by decide),
   clampText_behavior.2.2 "abc" 1 (by decide) (by decide)⟩

/-! ## C5 — `isDangerousCommand` -/

/-- C5: `isDangerousCommand` returns true exactly when the case-lowered
command contains one of the five blocklist substrings; in particular it
fires on `"sudo rm -rf /tmp"` and `"SHUTDOWN now"` and not on
`"sudo_user_list"`. -/
theorem isDangerousCommand_spec :
    (∀ cmd : String, isDangerousCommand cmd = true ↔
        ∃ token ∈ dangerTokens, token.data <:+: (toLowerStr cmd).data) ∧
    isDangerousCommand "sudo rm -rf /tmp" = true ∧
    isDangerousCommand "SHUTDOWN now" = true ∧
    isDangerousCommand "sudo_user_list" = false := by
  refine ⟨?_, by decide, by decide, by decide⟩
  intro cmd
  simp [isDangerousCommand, List.any_eq_true, hasSubstr_spec]

/-! ## C1 — `safePath` -/

theorem isAbsPath_spec (s : String) : isAbsPath s = true ↔ ∃ t, s.data = '/' :: t := by
  unfold isAbsPath strStartsWith
  rw [prefixOfChar_spec]
  constructor
  · rintro ⟨t, e⟩
    exact ⟨t, by simpa using e.symm⟩
  · rintro ⟨t, e⟩
    exact ⟨t, by simp [e]⟩

theorem absSlashAppend (s : String) : isAbsPath ("/" ++ s) = true :=
  (isAbsPath_spec _).mpr ⟨s.data, rfl⟩

theorem clean_abs (s : String) (h : isAbsPath s = true) :
    isAbsPath (clean s) = true := by
  obtain ⟨t, hd⟩ := (isAbsPath_spec s).mp h
  unfold clean
  rw [hd]
  exact absSlashAppend _

theorem goJoin_abs (a b : String) (h : isAbsPath a = true) :
    isAbsPath (goJoin a b) = true := by
  obtain ⟨t, hd⟩ := (isAbsPath_spec a).mp h
  have hne : ¬ a = "" := by
    intro e
    rw [e] at hd
    simp at hd
  unfold goJoin
  rw [if_neg hne]
  apply clean_abs
  exact (isAbsPath_spec _).mpr ⟨t ++ '/' :: b.data, by simp [String.data_append, hd]⟩

theorem goAbs_abs (cwd p : String) (h : isAbsPath cwd = true) :
    isAbsPath (goAbs cwd p) = true := by
  unfold goAbs
  by_cases hp : isAbsPath p = true
  · rw [if_pos hp]
    exact clean_abs p hp
  · rw [if_neg hp]
    exact goJoin_abs cwd p h

/-- The escape guard at the end of `safePath`: if it lets a path through,
that path equals the canonical root or extends it past a separator. -/
theorem escapeGuard_ok (w a out : String)
    (h : (if ¬ strStartsWith a (w ++ "/") = true ∧ ¬ a = w then
            (Except.error "path escapes workspace" : Except String String)
          else Except.ok a) = Except.ok out) :
    out = a ∧ (out = w ∨ (w ++ "/").data <+: out.data) := by
  split at h
  · exact absurd h (by simp)
  · next hguard =>
    injection h with h
    subst h
    refine ⟨rfl, ?_⟩
    rcases not_and_or.mp hguard with h1 | h2
    · rw [not_not] at h1
      exact Or.inr ((prefixOfChar_spec _ _).mp h1)
    · rw [not_not] at h2
      exact Or.inl h2

/-- C1: a path accepted by `safePath` is the canonical workspace root or
has the root plus the path separator as a strict prefix (and, for an
absolute working directory, is itself absolute); empty or whitespace-only
input is rejected, and the `..`-traversal `"../../etc/passwd"` against
root `"/work"` fails with the path-escape error. -/
theorem safePath_spec :
    (∀ cwd workDir p out, safePath cwd workDir p = .ok out →
        out = goAbs cwd workDir ∨ (goAbs cwd workDir ++ "/").data <+: out.data) ∧
    (∀ cwd workDir p out, isAbsPath cwd = true → safePath cwd workDir p = .ok out →
        isAbsPath out = true) ∧
    (∀ cwd workDir p, trimSpace p = "" →
        safePath cwd workDir p = .error "path required") ∧
    safePath "/" "/work" "../../etc/passwd" = .error "path escapes workspace" := by
  refine ⟨?_, ?_, ?_, by decide⟩
  · intro cwd workDir p out h
    unfold safePath at h
    dsimp only at h
    split at h
    · exact absurd h (by simp)
    · exact (escapeGuard_ok _ _ _ h).2
  · intro cwd workDir p out hcwd h
    unfold safePath at h
    dsimp only at h
    split at h
    · exact absurd h (by simp)
    · rw [(escapeGuard_ok _ _ _ h).1]
      exact goAbs_abs cwd _ hcwd
  · intro cwd workDir p h
    simp [safePath, h]

/-- Witness for C1's theorem: the relative path `"sub"` resolves inside
`"/work"`, a whitespace-only path is rejected, and the resolved path is
absolute. -/
theorem safePath_spec_witness :
    (("/work/sub" : String) = goAbs "/" "/work" ∨
        (goAbs "/" "/work" ++ "/").data <+: ("/work/sub" : String).data) ∧
    safePath "/" "/work" " \t" = .error "path required" ∧
    isAbsPath "/work/sub" = true :=
  ⟨safePath_spec.1 "/" "/work" "sub" "/work/sub" (by decide),
   safePath_spec.2.2.1 "/" "/work" " \t" (by decide),
   safePath_spec.2.1 "/" "/work" "sub" "/work/sub" (by decide) (by decide)⟩

/-! ## C2, C3, C10 — the todo board -/

theorem filterLen_mono {α : Type} (p q : α → Bool) (hpq : ∀ x, p x = true → q x = true) :
    ∀ l : List α, (l.filter p).length ≤ (l.filter q).length := by
  intro l
  induction l with
  | nil => simp
  | cons a t ih =>
    by_cases hp : p a = true
    · simp only [List.filter_cons, hp, hpq a hp, if_true, List.length_cons]
      omega
    · simp only [List.filter_cons, hp, if_false, Bool.false_eq_true]
      split
      · exact le_trans ih (Nat.le_succ _)
      · exact ih

/-- What a successful run of the validation loop guarantees, by induction
over the proposed items, generalizing the seen-id accumulator and the
running count. -/
theorem validateItems_ok :
    ∀ (items : List TodoItem) (seen : List String) (cnt n : Nat),
      validateItems items seen cnt = .ok n →
      ((items.map fun it => it.id).Nodup ∧ (∀ it ∈ items, it.id ∉ seen)) ∧
      (∀ it ∈ items, ¬ trimSpace it.content = "") ∧
      (∀ it ∈ items, ¬ trimSpace it.activeForm = "") ∧
      (∀ it ∈ items, toLowerStr it.status = "pending" ∨
          toLowerStr it.status = "in_progress" ∨ toLowerStr it.status = "completed") ∧
      n = cnt + (items.filter fun it => toLowerStr it.status = "in_progress").length := by
  intro items
  induction items with
  | nil =>
    intro seen cnt n h
    simp only [validateItems] at h
    injection h with h
    subst h
    simp
  | cons item rest ih =>
    intro seen cnt n h
    unfold validateItems at h
    dsimp only at h
    split at h
    · exact absurd h (by simp)
    · next hid =>
      split at h
      · exact absurd h (by simp)
      · next hcont =>
        split at h
        · exact absurd h (by simp)
        · next hact =>
          split at h
          · exact absurd h (by simp)
          · next hstatus =>
            obtain ⟨⟨hnd, hsn⟩, hc, ha, hs, hn⟩ := ih _ _ _ h
            have hst : toLowerStr item.status = "pending" ∨
                toLowerStr item.status = "in_progress" ∨
                toLowerStr item.status = "completed" := by
              by_contra hcon
              push_neg at hcon
              exact hstatus ⟨hcon.1, hcon.2.1, hcon.2.2⟩
            refine ⟨⟨?_, ?_⟩, ?_, ?_, ?_, ?_⟩
            · rw [List.map_cons, List.nodup_cons]
              refine ⟨?_, hnd⟩
              intro hmem
              obtain ⟨it, hit, hix⟩ := List.mem_map.mp hmem
              exact (hsn it hit) (by rw [hix]; exact List.mem_cons_self _ _)
            · intro it hit
              rcases List.mem_cons.mp hit with rfl | hmem
              · exact hid
              · intro hin
                exact (hsn it hmem) (List.mem_cons_of_mem _ hin)
            · intro it hit
              rcases List.mem_cons.mp hit with rfl | hmem
              · exact hcont
              · exact hc it hmem
            · intro it hit
              rcases List.mem_cons.mp hit with rfl | hmem
              · exact hact
              · exact ha it hmem
            · intro it hit
              rcases List.mem_cons.mp hit with rfl | hmem
              · exact hst
              · exact hs it hmem
            · by_cases hip : toLowerStr item.status = "in_progress"
              · simp [List.filter_cons, hip] at hn ⊢
                omega
              · simp [List.filter_cons, hip] at hn ⊢
                omega

/-- `Update` either fails leaving the stored list untouched, or succeeds
storing the argument list and rendering it. -/
theorem update_cases (st items : List TodoItem) :
    (∃ e, TodoManager.Update st items = (.error e, st)) ∨
    TodoManager.Update st items = (.ok (TodoManager.render items), items) := by
  unfold TodoManager.Update
  split
  · exact Or.inl ⟨_, rfl⟩
  · cases hv : validateItems items [] 0 with
    | error e => simp [hv]
    | ok k =>
      simp only [hv]
      split
      · exact Or.inl ⟨_, rfl⟩
      · exact Or.inr rfl

/-- Everything a successful `Update` guarantees about the accepted list. -/
theorem update_ok_full (st items : List TodoItem) (res : String) (st' : List TodoItem)
    (h : TodoManager.Update st items = (.ok res, st')) :
    st' = items ∧
    items.length ≤ 20 ∧
    (items.map fun it => it.id).Nodup ∧
    (∀ it ∈ items, ¬ trimSpace it.content = "") ∧
    (∀ it ∈ items, ¬ trimSpace it.activeForm = "") ∧
    (∀ it ∈ items, toLowerStr it.status = "pending" ∨
        toLowerStr it.status = "in_progress" ∨ toLowerStr it.status = "completed") ∧
    (items.filter fun it => toLowerStr it.status = "in_progress").length ≤ 1 := by
  unfold TodoManager.Update at h
  split at h
  · exact absurd h (by simp)
  · next hlen =>
    cases hv : validateItems items [] 0 with
    | error e =>
      rw [hv] at h
      dsimp only at h
      exact absurd h (by simp)
    | ok k =>
      rw [hv] at h
      dsimp only at h
      split at h
      · exact absurd h (by simp)
      · next hcnt =>
        injection h with h1 h2
        obtain ⟨⟨hnd, _⟩, hc, ha, hs, hn⟩ := validateItems_ok items [] 0 k hv
        exact ⟨h2.symm, by omega, hnd, hc, ha, hs, by omega⟩

/-- C2: `Update` is all-or-nothing — whenever the proposed list violates
any validation rule, the call returns an error and the stored list is
exactly what it was before; no prefix of the proposal is committed. -/
theorem update_all_or_nothing :
    ∀ st items, ViolatesUpdateRules items →
      (∃ e, (TodoManager.Update st items).1 = .error e) ∧
      (TodoManager.Update st items).2 = st := by
  intro st items hviol
  rcases update_cases st items with ⟨e, he⟩ | hok
  · exact ⟨⟨e, by rw [he]⟩, by rw [he]⟩
  · exfalso
    obtain ⟨_, hlen, hnd, hc, ha, hs, hcnt⟩ :=
      update_ok_full st items (TodoManager.render items) items hok
    rcases hviol with h | h | ⟨it, hit, hx⟩ | ⟨it, hit, hx⟩ | ⟨it, hit, hx⟩ | h
    · omega
    · exact h hnd
    · exact hc it hit hx
    · exact ha it hit hx
    · exact hx (hs it hit)
    · omega

/-- Witness for C2's theorem: a two-element list with both items
`in_progress` is rejected and an empty board stays empty. -/
theorem update_all_or_nothing_witness :
    (∃ e, (TodoManager.Update []
        [{ id := "1", content := "a", status := "in_progress", activeForm := "x" },
         { id := "2", content := "b", status := "in_progress", activeForm := "y" }]).1 = .error e) ∧
    (TodoManager.Update []
        [{ id := "1", content := "a", status := "in_progress", activeForm := "x" },
         { id := "2", content := "b", status := "in_progress", activeForm := "y" }]).2 = [] :=
  update_all_or_nothing [] _ (by right; right; right; right; right; decide)

/-- C3: every list accepted by `Update` has pairwise-distinct ids, at most
one `in_progress` item and at most 20 items; moreover the stored state
only ever stays unchanged or becomes such an accepted list, so every
reachable board state satisfies the invariant. -/
theorem update_accepted_invariant :
    (∀ st items res st', TodoManager.Update st items = (.ok res, st') →
        (items.map fun it => it.id).Nodup ∧
        (items.filter fun it => it.status = "in_progress").length ≤ 1 ∧
        items.length ≤ 20) ∧
    (∀ st items, (TodoManager.Update st items).2 = st ∨
        (TodoManager.Update st items).2 = items) := by
  constructor
  · intro st items res st' h
    obtain ⟨_, hlen, hnd, _, _, _, hcnt⟩ := update_ok_full st items res st' h
    refine ⟨hnd, ?_, hlen⟩
    refine le_trans (filterLen_mono _ _ ?_ items) hcnt
    intro it hip
    have : it.status = "in_progress" := by simpa using hip
    simp [this]
    decide
  · intro st items
    rcases update_cases st items with ⟨e, he⟩ | hok
    · rw [he]; exact Or.inl rfl
    · rw [hok]; exact Or.inr rfl

/-- Witness for C3's theorem: the empty update is accepted. -/
theorem update_accepted_invariant_witness :
    (((([] : List TodoItem)).map fun it => it.id).Nodup ∧
      ((([] : List TodoItem)).filter fun it => it.status = "in_progress").length ≤ 1 ∧
      (([] : List TodoItem)).length ≤ 20) ∧
    ((TodoManager.Update [mixedCaseItem] []).2 = [mixedCaseItem] ∨
      (TodoManager.Update [mixedCaseItem] []).2 = []) :=
  ⟨update_accepted_invariant.1 [] [] (TodoManager.render []) [] (by decide),
   update_accepted_invariant.2 [mixedCaseItem] []⟩

/-- C10: the status token is validated case-insensitively but stored
verbatim — a successful `Update` stores the argument list unchanged, and
an item accepted as `"Completed"` is counted by `stats` as neither
completed nor in-progress and rendered by `render` with the pending
glyph and styling. -/
theorem update_stores_verbatim :
    (∀ st items res st', TodoManager.Update st items = (.ok res, st') → st' = items) ∧
    TodoManager.Update [] [mixedCaseItem] =
      (.ok (TodoManager.render [mixedCaseItem]), [mixedCaseItem]) ∧
    TodoManager.stats [mixedCaseItem] = { total := 1, completed := 0, inProgress := 0 } ∧
    TodoManager.render [mixedCaseItem] =
      todoPendingColor ++ "☐" ++ " " ++ mixedCaseItem.content ++ ansiReset := by
  refine ⟨?_, by decide, by decide, by decide⟩
  intro st items res st' h
  exact (update_ok_full st items res st' h).1

/-- Witness for C10's theorem at a concrete accepted update. -/
theorem update_stores_verbatim_witness :
    ([mixedCaseItem] : List TodoItem) = [mixedCaseItem] :=
  update_stores_verbatim.1 [] [mixedCaseItem]
    (TodoManager.render [mixedCaseItem]) [mixedCaseItem] (by decide)

/-! ## C6 — the `bash` tool -/

/-- C6: for a non-empty, non-dangerous command, a deadline-exceeded run
returns the literal `"(timeout)"` with no error; a nonzero exit returns
the combined output with the explanatory exit suffix appended, still as a
non-error result; an empty combined trimmed output on a clean run is
rendered as `"(no output)"`.  The execution timeout defaults to 30000 ms
and is caller-overridable via `timeout_ms`. -/
theorem runBash_spec :
    (∀ input stdout stderr runErr,
        ¬ trimSpace (getString input "command") = "" →
        isDangerousCommand (trimSpace (getString input "command")) = false →
        runBash input true stdout stderr runErr = ("(timeout)", none)) ∧
    (∀ input stdout stderr msg,
        ¬ trimSpace (getString input "command") = "" →
        isDangerousCommand (trimSpace (getString input "command")) = false →
        runBash input false stdout stderr (.exitErr msg) =
          (clampText ((if trimSpace (stdout ++ "\n" ++ stderr) = "" then "(no output)"
                       else trimSpace (stdout ++ "\n" ++ stderr)) ++
              "\n(exit error: " ++ msg ++ ")") 100000, none)) ∧
    (∀ input stdout stderr,
        ¬ trimSpace (getString input "command") = "" →
        isDangerousCommand (trimSpace (getString input "command")) = false →
        trimSpace (stdout ++ "\n" ++ stderr) = "" →
        runBash input false stdout stderr .clean = ("(no output)", none)) ∧
    getIntOrDefault [] "timeout_ms" 30000 = 30000 ∧
    (∀ n : Int, getIntOrDefault [("timeout_ms", .gnum n)] "timeout_ms" 30000 = n) := by
  refine ⟨?_, ?_, ?_, by decide, fun n => rfl⟩
  · intro input stdout stderr runErr hcmd hdang
    simp [runBash, hcmd, hdang]
  · intro input stdout stderr msg hcmd hdang
    simp [runBash, hcmd, hdang]
  · intro input stdout stderr hcmd hdang hout
    have hno : clampText "(no output)" 100000 = "(no output)" :=
      clampText_of_le _ _ (by decide)
    simp [runBash, hcmd, hdang, hout, hno]

/-- Witness for C6's theorem: a concrete `ls` invocation that timed out,
and one that exited cleanly with no output. -/
theorem runBash_spec_witness :
    runBash [("command", GoVal.gstr "ls")] true "" "" .clean = ("(timeout)", none) ∧
    runBash [("command", GoVal.gstr "ls")] false "" "" .clean = ("(no output)", none) :=
  ⟨runBash_spec.1 [("command", GoVal.gstr "ls")] "" "" .clean (by decide) (by decide),
   runBash_spec.2.2.1 [("command", GoVal.gstr "ls")] "" "" (by decide) (by decide) (by decide)⟩

/-! ## C9 — `dispatchToolCall` -/

/-- C9: `dispatchToolCall` is total — for every tool call, including ones
with unparseable arguments or an unknown tool name, it returns a message
with role `"tool"`, the call's id as `toolCallId` and the call's function
name as `name`, whose content is either the parse-error description or
the clamped result-or-error text. -/
theorem dispatchToolCall_total :
    ∀ (maxResult : Int) (tc : ToolCall) (parsed : Except String ArgMap)
      (exec : String → ArgMap → String × Option String),
      (dispatchToolCall maxResult tc parsed exec).role = "tool" ∧
      (dispatchToolCall maxResult tc parsed exec).toolCallId = tc.id ∧
      (dispatchToolCall maxResult tc parsed exec).name = tc.function.name ∧
      ((∃ e, parsed = .error e ∧
          (dispatchToolCall maxResult tc parsed exec).content =
            .mstr ("Error parsing arguments: " ++ e)) ∨
        (∃ r, (dispatchToolCall maxResult tc parsed exec).content =
          .mstr (clampText r maxResult))) := by
  intro maxResult tc parsed exec
  cases parsed with
  | error e => exact ⟨rfl, rfl, rfl, Or.inl ⟨e, rfl, rfl⟩⟩
  | ok input => exact ⟨rfl, rfl, rfl, Or.inr ⟨_, rfl⟩⟩

/-! ## C7 — the streaming decoder -/

theorem concatFrags_append (a b : List String) :
    concatFrags (a ++ b) = concatFrags a ++ concatFrags b := by
  induction a with
  | nil => simp [concatFrags, strNil_append]
  | cons s t ih => simp [concatFrags, ih, String.append_assoc]

/-- The accumulator loop computes the concatenation of the fragment
list, whatever text it starts from. -/
theorem handleStreamingLines_acc (lines : List String) :
    ∀ acc, handleStreamingLines lines acc = acc ++ concatFrags (sseFragments lines) := by
  induction lines with
  | nil =>
    intro acc
    simp [handleStreamingLines, sseFragments, concatFrags, strAppend_nil]
  | cons line rest ih =>
    intro acc
    unfold handleStreamingLines sseFragments
    by_cases h1 : trimSpace line = "" ∨ ¬ strStartsWith line "data: " = true
    · rw [if_pos h1, if_pos h1]
      exact ih acc
    · rw [if_neg h1, if_neg h1]
      by_cases h2 : goTrimLead line "data: " = "[DONE]"
      · rw [if_pos h2, if_pos h2]
        simp [concatFrags, strAppend_nil]
      · rw [if_neg h2, if_neg h2]
        cases hp : parseChunk (goTrimLead line "data: ") with
        | none => simp [hp, ih]
        | some choices =>
          cases choices with
          | nil => simp [hp, ih]
          | cons c cs =>
            by_cases h3 : ¬ c.deltaContent = ""
            · by_cases h4 : ¬ c.finishReason = ""
              · simp [hp, h3, h4, concatFrags, strAppend_nil]
              · simp [hp, h3, h4, ih, concatFrags_append, concatFrags,
                      strAppend_nil, String.append_assoc]
            · by_cases h4 : ¬ c.finishReason = ""
              · simp [hp, h3, h4, concatFrags, strAppend_nil]
              · simp [hp, h3, h4, ih, concatFrags, strAppend_nil]

/-- C7: a normally-ending stream decodes to exactly one assistant message
whose content is the concatenation, in arrival order, of the parsed delta
fragments, with finish-reason `"stop"` regardless of what the deltas
reported; the spec's transcript decodes to `"Hi there"`, and an
unparseable chunk in the middle is skipped without aborting. -/
theorem handleStreamingResponse_spec :
    (∀ lines, handleStreamingResponse lines =
        { choices := [{ message := { role := "assistant",
                                     content := .mstr (concatFrags (sseFragments lines)) },
                        finishReason := "stop" }] }) ∧
    handleStreamingResponse [sseLine1, sseLine2, sseLine3] =
      { choices := [{ message := { role := "assistant", content := .mstr "Hi there" },
                      finishReason := "stop" }] } ∧
    handleStreamingResponse [sseLine1, sseBadLine, sseLine2, sseLine3] =
      { choices := [{ message := { role := "assistant", content := .mstr "Hi there" },
                      finishReason := "stop" }] } := by
  refine ⟨?_, by decide, by decide⟩
  intro lines
  unfold handleStreamingResponse
  rw [handleStreamingLines_acc lines "", strNil_append]

/-! ## C8 — the agent loop -/

/-- The two parallel accumulators of the tool loop stay in lock step:
running the implementation pair starting from `(ms, sys :: ms)` yields
the single-history spec result with the system message still in front. -/
theorem execCalls_eq (te : List Message → ToolCall → Message) (sys : Message) :
    ∀ (tcs : List ToolCall) (ms : List Message),
      execCallsImpl te tcs (ms, sys :: ms) =
        (execCallsSpec te tcs ms, sys :: execCallsSpec te tcs ms) := by
  intro tcs
  induction tcs with
  | nil => intro ms; rfl
  | cons tc rest ih => intro ms; exact ih (ms ++ [te ms tc])

/-- The iteration loop maintains `full = sys :: ms`, so it equals the
single-history spec recursion. -/
theorem queryLoop_eq (call : List Message → Except String APIResponse)
    (te : List Message → ToolCall → Message) (sys : Message) :
    ∀ (n : Nat) (ms : List Message),
      queryLoop call te n ms (sys :: ms) = querySpec sys call te n ms := by
  intro n
  induction n with
  | zero => intro ms; rfl
  | succ k ih =>
    intro ms
    unfold queryLoop querySpec
    cases call (sys :: ms) with
    | error e => rfl
    | ok resp =>
      obtain ⟨rid, robj, rcr, rmdl, chs⟩ := resp
      cases chs with
      | nil => rfl
      | cons choice crest =>
        dsimp only
        by_cases hf : choice.finishReason = "tool_calls" ∧
            choice.message.toolCalls.length > 0
        · rw [if_pos hf, if_pos hf]
          simp only [List.cons_append]
          rw [execCalls_eq te sys choice.message.toolCalls (ms ++ [choice.message])]
          exact ih _
        · rw [if_neg hf, if_neg hf]

/-- A model that always requests tool calls drives the loop into the cap. -/
theorem querySpec_cap (sys : Message) (call : List Message → Except String APIResponse)
    (te : List Message → ToolCall → Message)
    (hcall : ∀ h, IsToolRound (call h)) :
    ∀ (n : Nat) (ms : List Message),
      (querySpec sys call te n ms).2 = some "agent max iterations reached" := by
  intro n
  induction n with
  | zero => intro ms; rfl
  | succ k ih =>
    intro ms
    obtain ⟨resp, c, rest, he, hch, hfin, hlen⟩ := hcall (sys :: ms)
    unfold querySpec
    rw [he]
    dsimp only
    rw [hch]
    dsimp only
    rw [if_pos ⟨hfin, hlen⟩]
    exact ih _

/-- C8: `query` computes exactly the single-history recursion that
appends precisely the assistant and tool messages of each round — in
particular, a model-call failure in any round returns the history as of
before that failing call, shown directly for the failing round by the
second conjunct; and a model that keeps requesting tools for 20 rounds
makes `query` return the distinct iteration-cap error rather than a
silently truncated conversation. -/
theorem query_history_spec :
    (∀ wd call te ms, query wd call te ms = querySpec (sysMessage wd) call te 20 ms) ∧
    (∀ sys call te ms e, call (sys :: ms) = .error e →
        querySpec sys call te 20 ms = (ms, some e)) ∧
    (∀ sys call te ms, (∀ h, IsToolRound (call h)) →
        (querySpec sys call te 20 ms).2 = some "agent max iterations reached") := by
  refine ⟨?_, ?_, ?_⟩
  · intro wd call te ms
    exact queryLoop_eq call te (sysMessage wd) 20 ms
  · intro sys call te ms e h
    simp [querySpec, h]
  · intro sys call te ms hcall
    exact querySpec_cap sys call te hcall 20 ms

/-- Witness for C8's theorem: a model that fails immediately returns the
original history with its error, and a model that always requests one
tool call exhausts the 20-round cap. -/
theorem query_history_spec_witness :
    querySpec (sysMessage "/w") (fun _ => .error "boom")
      (fun _ _ => ⟨"tool", .mnone, [], "", ""⟩) 20 [] = ([], some "boom") ∧
    (querySpec (sysMessage "/w")
        (fun _ => .ok ⟨"", "", 0, "",
          [⟨0, ⟨"assistant", .mnone, [⟨"t1", "function", ⟨"bash", ""⟩⟩], "", ""⟩,
            "tool_calls"⟩]⟩)
        (fun _ _ => ⟨"tool", .mnone, [], "", ""⟩) 20 []).2 =
      some "agent max iterations reached" :=
  ⟨query_history_spec.2.1 _ _ _ [] "boom" rfl,
   query_history_spec.2.2 _ _ _ []
     (fun _ => ⟨_, _, [], rfl, rfl, rfl, by decide⟩)⟩

end MiniCC
